import Mathlib

/-!
# Verification of the Lumina study-buddy core

Shallow embedding of the core logic of the Lumina study-buddy web application
(`src/services/geminiService.ts`, `src/App.tsx`, `src/components/Quiz.tsx`)
together with proofs about the spec's claims: backoff/retry behaviour, chat
history compaction, study-guide generation, the dual-mode playback engine,
word-segment highlighting, chat-stream assembly, and quiz shuffling.

Conventions: asynchronous operations against the external generative service
are modelled as explicit functions from the attempt number (or the message
list) to an outcome, so that each embedded function is deterministic in its
inputs.  Timers (`setTimeout`) are modelled by recording the requested delay.

The file is organised as definitions first (the embedding), then theorems.
-/

namespace Lumina

/-! ## Data model (`src/types.ts`) -/

/-- Chat participant role (`'user' | 'model'`). -/
inductive Role where
  | user
  | model
deriving DecidableEq

/-- `ChatMessage` from `src/types.ts`. -/
structure ChatMessage where
  role : Role
  content : String
deriving DecidableEq

/-- `VocabularyItem` from `src/types.ts`. -/
structure VocabularyItem where
  word : String
  definition : String
deriving DecidableEq

/-- `QuizQuestion` from `src/types.ts`.  `correctAnswerIndex` is a JS number
returned by the model (schema type INTEGER), so it is embedded as `Int`. -/
structure QuizQuestion where
  question : String
  options : List String
  correctAnswerIndex : Int
deriving DecidableEq

/-- `StudyData` from `src/types.ts`, with the extra fields produced by
`processLectureNotes` (`title`, `languageCode`, `audioInstruction`). -/
structure StudyData where
  title : String
  summary : String
  languageCode : String
  audioInstruction : String
  vocabulary : List VocabularyItem
  quiz : List QuizQuestion
deriving DecidableEq

/-! ## Service errors and the backoff executor
(`src/services/geminiService.ts`, `retryWithBackoff`) -/

/-- An error thrown by a service call: its `message` string and optional
HTTP-like `status` field, the two things `retryWithBackoff` inspects. -/
structure SvcError where
  message : String
  status : Option Int
deriving DecidableEq

/-- JS `String.prototype.includes`: `s` contains `pat` as a substring
(checked structurally over the character lists, so it computes by kernel
reduction). -/
def strIncludes (s pat : String) : Bool :=
  s.toList.tails.any (fun t => pat.toList.isPrefixOf t)

/-- The quota-error classification in `retryWithBackoff`:
`error?.message?.includes('429') || error?.status === 429`. -/
def isQuotaError (e : SvcError) : Bool :=
  strIncludes e.message "429" || e.status == some 429

/-- Outcome of a single invocation of the wrapped async operation. -/
inductive CallResult (α : Type) where
  | ok (v : α)
  | err (e : SvcError)
deriving DecidableEq

/-- Result of `retryWithBackoff`, instrumented with the number of times the
operation was invoked (`calls`) and the list of `setTimeout` delays that were
awaited, in order (`delays`).
`maxRetriesExceeded` corresponds to the final
`throw new Error("Max retries exceeded")` after the loop. -/
inductive RetryResult (α : Type) where
  | ok (v : α) (calls : Nat) (delays : List Nat)
  | err (e : SvcError) (calls : Nat) (delays : List Nat)
  | maxRetriesExceeded (calls : Nat) (delays : List Nat)
deriving DecidableEq

/-- Does the retry end in the terminal `"Max retries exceeded"` error? -/
def RetryResult.isMaxRetriesExceeded {α : Type} : RetryResult α → Bool
  | .maxRetriesExceeded _ _ => true
  | _ => false

/-- Number of invocations of the wrapped operation recorded in the result. -/
def RetryResult.callCount {α : Type} : RetryResult α → Nat
  | .ok _ c _ => c
  | .err _ c _ => c
  | .maxRetriesExceeded c _ => c

/-- The recorded `setTimeout` delays, in order. -/
def RetryResult.delayList {α : Type} : RetryResult α → List Nat
  | .ok _ _ d => d
  | .err _ _ d => d
  | .maxRetriesExceeded _ d => d

/-- The body of `retryWithBackoff`'s `for (let i = 0; i <= maxRetries; i++)`
loop.  `fn i` is the outcome of the `i`-th invocation of the operation,
`fuel` is the number of loop iterations still permitted (`maxRetries + 1 - i`
at entry), `delay` the current backoff delay and `delays` the delays awaited
so far.  When `fuel` runs out the loop falls through to
`throw new Error("Max retries exceeded")`. -/
def retryLoop {α : Type} (fn : Nat → CallResult α) (maxRetries : Nat) :
    Nat → Nat → Nat → List Nat → RetryResult α
  | 0, i, _, delays => .maxRetriesExceeded i delays
  | fuel + 1, i, delay, delays =>
    match fn i with
    | .ok v => .ok v (i + 1) delays
    | .err e =>
      if isQuotaError e && decide (i < maxRetries) then
        retryLoop fn maxRetries fuel (i + 1) (delay * 2) (delays ++ [delay])
      else
        .err e (i + 1) delays

/-- `retryWithBackoff(fn, maxRetries)` from `src/services/geminiService.ts`:
`delay` starts at `1000`, the loop runs `i = 0 .. maxRetries`. -/
def retryWithBackoff {α : Type} (fn : Nat → CallResult α) (maxRetries : Nat) :
    RetryResult α :=
  retryLoop fn maxRetries (maxRetries + 1) 0 1000 []

/-! ## History compaction (`summarizeOldHistory`, `askQuestionAboutDocumentStream`) -/

/-- `summarizeOldHistory` from `src/services/geminiService.ts`.  The external
summarization model call (`ai.models.generateContent` followed by
`response.text || ""`) is modelled by the function argument
`summarizeModel`; the guard `if (history.length === 0) return ""` is the
code's own. -/
def summarizeOldHistory (summarizeModel : List ChatMessage → String)
    (history : List ChatMessage) : String :=
  if history.length = 0 then "" else summarizeModel history

/-- The literal prefix of the `backgroundContext` template string built in
`askQuestionAboutDocumentStream`. -/
def historyContextPrefix : String :=
  "\nPreviously discussed and established context:\n"

/-- The pair (`processedHistory`, `backgroundContext`) computed inside
`askQuestionAboutDocumentStream`. -/
structure CompactedHistory where
  processedHistory : List ChatMessage
  backgroundContext : String
deriving DecidableEq

/-- The history-compaction block of `askQuestionAboutDocumentStream`
(`src/services/geminiService.ts` lines 146-155): when more than 10 turns are
present, the oldest `length - 10` are summarized and only the most recent 10
are kept; otherwise everything passes through and the context is empty. -/
def compactHistory (summarizeModel : List ChatMessage → String)
    (history : List ChatMessage) : CompactedHistory :=
  if history.length > 10 then
    let olderMessages := history.take (history.length - 10)
    let recentMessages := history.drop (history.length - 10)
    ⟨recentMessages,
      historyContextPrefix ++ summarizeOldHistory summarizeModel olderMessages⟩
  else
    ⟨history, ""⟩

/-- The observable effect of `askQuestionAboutDocumentStream`: the compacted
history it builds its request from, and the (retry-wrapped) result of opening
the response stream.  `openStream i` is the outcome of the `i`-th attempt of
the wrapped `ai.models.generateContentStream` call. -/
structure StreamCall (σ : Type) where
  compacted : CompactedHistory
  streamResult : RetryResult σ
deriving DecidableEq

/-- `askQuestionAboutDocumentStream` from `src/services/geminiService.ts`:
compacts the history, then opens the stream through
`retryWithBackoff(..., 3)` (the default `maxRetries`). -/
def askQuestionAboutDocumentStream {σ : Type}
    (summarizeModel : List ChatMessage → String)
    (openStream : Nat → CallResult σ)
    (history : List ChatMessage) : StreamCall σ :=
  ⟨compactHistory summarizeModel history, retryWithBackoff openStream 3⟩

/-! ## Guide generation (`processLectureNotes`) -/

/-- The JSON object shape enforced by the `responseSchema` passed to the
model in `processLectureNotes` (required fields `title`, `summary`,
`language_code`, `audio_instruction`, `vocabulary`, `quiz`; the schema
constrains field types only, never array lengths or index ranges). -/
structure RawStudyData where
  title : String
  summary : String
  language_code : String
  audio_instruction : String
  vocabulary : List VocabularyItem
  quiz : List QuizQuestion
deriving DecidableEq

/-- The result construction at the end of `processLectureNotes`:
`{ ...rawData, languageCode: rawData.language_code,
audioInstruction: rawData.audio_instruction }`. -/
def rawToStudyData (raw : RawStudyData) : StudyData :=
  { title := raw.title
    summary := raw.summary
    languageCode := raw.language_code
    audioInstruction := raw.audio_instruction
    vocabulary := raw.vocabulary
    quiz := raw.quiz }

/-- `processLectureNotes` from `src/services/geminiService.ts`.  The model's
response is embedded as `Option RawStudyData`: `none` for an empty
`response.text` (the `if (!text) throw new Error("Synthesis failed.")`
branch; a `JSON.parse` failure likewise produces a thrown error and no study
guide), `some raw` for a successfully parsed schema-conformant payload.  The
function performs no validation beyond that: the parsed data is returned
as-is, only renaming `language_code`/`audio_instruction`. -/
def processLectureNotes (responseData : Option RawStudyData) :
    Except String StudyData :=
  match responseData with
  | none => .error "Synthesis failed."
  | some raw => .ok (rawToStudyData raw)

/-- The quiz-item invariant from the spec:
`0 <= correctAnswerIndex < options.length`. -/
def quizItemWellFormed (q : QuizQuestion) : Prop :=
  0 ≤ q.correctAnswerIndex ∧ q.correctAnswerIndex < q.options.length

instance (q : QuizQuestion) : Decidable (quizItemWellFormed q) := by
  unfold quizItemWellFormed; infer_instance

/-- The spec's claimed StudyGuide invariant: 10 vocabulary entries, 10 quiz
questions, every quiz item's answer index in range. -/
def guideWellFormed (g : StudyData) : Prop :=
  g.vocabulary.length = 10 ∧ g.quiz.length = 10 ∧
    ∀ q ∈ g.quiz, quizItemWellFormed q

instance (g : StudyData) : Decidable (guideWellFormed g) := by
  unfold guideWellFormed; infer_instance

/-! ## Chat-stream assembly (`handleSendChatMessage`, `src/App.tsx`) -/

/-- JS `String.prototype.trim`: strip whitespace from both ends (modelled
structurally over the character list so it computes by kernel reduction). -/
def jsTrim (s : String) : String :=
  ⟨((s.toList.dropWhile Char.isWhitespace).reverse.dropWhile
      Char.isWhitespace).reverse⟩

/-- Concatenation of a list of stream deltas, in order. -/
def concatAll : List String → String
  | [] => ""
  | d :: ds => d ++ concatAll ds

/-- One iteration of the `for await (const chunk of responseStream)` loop in
`handleSendChatMessage`: given the current `fullAnswer` accumulator and chat
log, a chunk with text `text` is appended to `fullAnswer` and written over
the last (model) turn of the log; an empty/absent `chunk.text` is skipped by
the `if (text)` guard. -/
def applyChunk : String × List ChatMessage → String → String × List ChatMessage
  | (fullAnswer, log), text =>
    if text = "" then (fullAnswer, log)
    else
      let fa := fullAnswer ++ text
      (fa, log.dropLast ++ [⟨.model, fa⟩])

/-- The `(fullAnswer, chatLog)` state after the first `k` stream chunks have
been processed, starting from the log right after `handleSendChatMessage`
has appended the user turn and the initially-empty model turn. -/
def streamStateAfter (chatLog : List ChatMessage) (userMsg : String)
    (deltas : List String) (k : Nat) : String × List ChatMessage :=
  (deltas.take k).foldl applyChunk
    ("", chatLog ++ [⟨.user, userMsg⟩, ⟨.model, ""⟩])

/-- `handleSendChatMessage` from `src/App.tsx` (success path): guards on a
blank input, appends the trimmed user turn, appends an empty model turn, and
folds the stream chunks into that turn.  `deltas` is the finite sequence of
`chunk.text` values produced by the response stream. -/
def handleSendChatMessage (chatLog : List ChatMessage) (chatInput : String)
    (deltas : List String) : List ChatMessage :=
  if jsTrim chatInput = "" then chatLog
  else
    let userMsg := jsTrim chatInput
    (deltas.foldl applyChunk
      ("", chatLog ++ [⟨.user, userMsg⟩, ⟨.model, ""⟩])).2

/-! ## The playback engine (`src/App.tsx`)

The playback state of the `App` component, embedded as an explicit record,
and its event handlers as state transitions.  Each handler (and each
asynchronous continuation, such as the `generateSpeech` result or an
`onended` callback) is modelled as one atomic transition, following the
sequential reading of the handler bodies; the outcome of the speech
synthesis request on the premium cold-start path is an explicit parameter. -/

/-- `type PlaybackMode = 'premium' | 'active' | 'none'` from `src/App.tsx`. -/
inductive PlaybackMode where
  | premium
  | active
  | none
deriving DecidableEq

/-- The `playbackState` union `'idle' | 'playing' | 'paused'`. -/
inductive PlaybackState where
  | idle
  | playing
  | paused
deriving DecidableEq

/-- A decoded audio buffer; only its `duration` is observable to the
playback logic. -/
structure AudioBuffer where
  duration : ℚ
deriving DecidableEq

/-- Outcome of the `generateSpeech` + `decodeAudioData` call on the premium
cold-start path: a decoded buffer, a 429/quota rejection, or another
failure. -/
inductive GenResult where
  | ok (buffer : AudioBuffer)
  | rateLimited
  | failed
deriving DecidableEq

/-- The playback-relevant state of the `App` component:
`activeMode`/`playbackState` state, the refs `sourceRef` (modelled as
`sourceActive`: a started, un-stopped `AudioBufferSourceNode` exists),
`startTimeRef`, `playedOffsetRef`, the prefetched buffer, the premium lock
flags, the highlight index, whether `window.speechSynthesis` currently holds
an utterance (`synthActive`), and whether `studyData?.summary` is non-empty
(`hasSummary`).  `lastSourceOffset` instruments the argument of the last
`source.start(0, offset % buffer.duration)` call. -/
structure EngineState where
  activeMode : PlaybackMode
  playbackState : PlaybackState
  sourceActive : Bool
  synthActive : Bool
  playedOffset : ℚ
  startTime : ℚ
  lastSourceOffset : ℚ
  prefetchedBuffer : Option AudioBuffer
  isPremiumLocked : Bool
  isPremiumUnavailable : Bool
  currentWordIndex : Option Nat
  hasSummary : Bool
deriving DecidableEq

/-- `stopAllPlayback` from `src/App.tsx`: cancel local speech synthesis,
stop and discard the source node, reset the played offset, return to
`(none, idle)` and clear the highlight. -/
def stopAllPlayback (s : EngineState) : EngineState :=
  { s with
    synthActive := false
    sourceActive := false
    playedOffset := 0
    playbackState := .idle
    activeMode := PlaybackMode.none
    currentWordIndex := Option.none }

/-- JS `%` on the non-negative offsets involved here (`offset` and
`buffer.duration` are non-negative in every reachable use). -/
def jsMod (a b : ℚ) : ℚ :=
  a - b * ⌊a / b⌋

/-- `playFromBuffer` from `src/App.tsx`: start a new source node at
`offset % buffer.duration`, record the start time, and enter `playing`. -/
def playFromBuffer (buffer : AudioBuffer) (offset : ℚ) (now : ℚ)
    (s : EngineState) : EngineState :=
  { s with
    sourceActive := true
    startTime := now
    lastSourceOffset := jsMod offset buffer.duration
    playbackState := .playing }

/-- The body of `toggleActiveReader` after its mutual-exclusion guard:
pause/resume when already in active mode, otherwise (given a summary)
cancel any utterance and speak the summary (`playing` is entered later by
the `onstart` callback, the `synthStarted` transition). -/
def toggleActiveReaderMain (s : EngineState) : EngineState :=
  if s.activeMode = PlaybackMode.active then
    if s.playbackState = .playing then { s with playbackState := .paused }
    else if s.playbackState = .paused then { s with playbackState := .playing }
    else s
  else if s.hasSummary = false then s
  else
    { s with activeMode := PlaybackMode.active, synthActive := true }

/-- `toggleActiveReader` from `src/App.tsx`:
`if (activeMode === 'premium') stopAllPlayback();` runs first, then the
pause/resume/start logic. -/
def toggleActiveReader (s : EngineState) : EngineState :=
  toggleActiveReaderMain
    (if s.activeMode = PlaybackMode.premium then stopAllPlayback s else s)

/-- The cold-start tail of `togglePremiumVoice`: guard on an empty summary,
enter premium mode, then play the prefetched buffer from offset 0 — or
request speech synthesis, whose outcome is `gen`: on success cache and play
the buffer; on a 429 mark premium unavailable, fall back to
`toggleActiveReader()`, and finally set `activeMode` to `'none'` (the
`setActiveMode('none')` at the end of the catch block); on another failure
set `activeMode` to `'none'`. -/
def premiumColdStart (now : ℚ) (gen : GenResult) (s : EngineState) :
    EngineState :=
  if s.hasSummary = false then s
  else
    let s1 := { s with activeMode := PlaybackMode.premium }
    match s1.prefetchedBuffer with
    | some buffer => playFromBuffer buffer 0 now s1
    | Option.none =>
      match gen with
      | .ok buffer =>
        playFromBuffer buffer 0 now { s1 with prefetchedBuffer := some buffer }
      | .rateLimited =>
        let s2 := { s1 with isPremiumUnavailable := true }
        { toggleActiveReader s2 with activeMode := PlaybackMode.none }
      | .failed => { s1 with activeMode := PlaybackMode.none }

/-- The body of `togglePremiumVoice` after its guards: pause when
`(premium, playing)` (accumulating the elapsed time into the played offset
and stopping the source without discarding the buffer), resume the cached
buffer at the accumulated offset when `(premium, paused)`, and otherwise
fall through to the cold-start logic. -/
def togglePremiumMain (now : ℚ) (gen : GenResult) (s : EngineState) :
    EngineState :=
  if s.activeMode = PlaybackMode.premium ∧ s.playbackState = .playing then
    if s.sourceActive then
      { s with
        playedOffset := s.playedOffset + (now - s.startTime)
        sourceActive := false
        playbackState := .paused }
    else s
  else if s.activeMode = PlaybackMode.premium ∧ s.playbackState = .paused then
    match s.prefetchedBuffer with
    | some buffer => playFromBuffer buffer s.playedOffset now s
    | Option.none => premiumColdStart now gen s
  else premiumColdStart now gen s

/-- `togglePremiumVoice` from `src/App.tsx`:
`if (isPremiumLocked || isPremiumUnavailable) return;` then
`if (activeMode === 'active') stopAllPlayback();` then the main logic.
`now` is `ctx.currentTime` at the call. -/
def togglePremiumVoice (now : ℚ) (gen : GenResult) (s : EngineState) :
    EngineState :=
  if s.isPremiumLocked || s.isPremiumUnavailable then s
  else
    togglePremiumMain now gen
      (if s.activeMode = PlaybackMode.active then stopAllPlayback s else s)

/-- The `source.onended` callback registered by `playFromBuffer` (fires only
on natural completion of the current source, since both `stopAllPlayback`
and the pause path clear `onended` before calling `stop()`). -/
def premiumSourceEnded (s : EngineState) : EngineState :=
  if s.sourceActive then
    let s1 := { s with sourceActive := false }
    if s1.activeMode = PlaybackMode.premium ∧ s1.playbackState = .playing then
      { s1 with
        playedOffset := 0
        playbackState := .idle
        activeMode := PlaybackMode.none }
    else s1
  else s

/-- The `utterance.onstart` callback of `toggleActiveReader`: enters
`playing` (fires only while the utterance is live). -/
def synthStarted (s : EngineState) : EngineState :=
  if s.synthActive then { s with playbackState := .playing } else s

/-- The `utterance.onend` callback of `toggleActiveReader` (fires when the
utterance finishes): the utterance is gone, and in active mode the engine
returns to `(none, idle)` and clears the highlight. -/
def synthEnded (s : EngineState) : EngineState :=
  if s.synthActive then
    let s1 := { s with synthActive := false }
    if s1.activeMode = PlaybackMode.active then
      { s1 with
        playbackState := .idle
        activeMode := PlaybackMode.none
        currentWordIndex := Option.none }
    else s1
  else s

/-- `handleSubmit` (success path) as it affects playback: clear the cached
buffer, relock premium, `stopAllPlayback()`, store the new guide
(`hasSummary`), and enter `prefetchAudio` (which relocks and clears the
unavailable flag). -/
def submitGenerated (s : EngineState) : EngineState :=
  let s1 := stopAllPlayback
    { s with
      prefetchedBuffer := Option.none
      isPremiumLocked := true
      isPremiumUnavailable := false }
  { s1 with hasSummary := true }

/-- `loadSession` as it affects playback: `stopAllPlayback()`, restore a
guide, and enter `prefetchAudio` (relock, clear unavailable). -/
def loadSessionPlayback (s : EngineState) : EngineState :=
  let s1 := stopAllPlayback s
  { s1 with
    hasSummary := true
    isPremiumLocked := true
    isPremiumUnavailable := false }

/-- `reset` as it affects playback: `stopAllPlayback()` and clear the
session. -/
def resetPlayback (s : EngineState) : EngineState :=
  let s1 := stopAllPlayback s
  { s1 with
    hasSummary := false
    prefetchedBuffer := Option.none
    isPremiumLocked := true
    isPremiumUnavailable := false }

/-- The success continuation of `prefetchAudio`: cache the decoded buffer. -/
def prefetchSucceeded (buffer : AudioBuffer) (s : EngineState) : EngineState :=
  { s with prefetchedBuffer := some buffer }

/-- The 429 catch branch of `prefetchAudio`: mark premium unavailable and
unlock the (now dead) button; the deferred `toggleActiveReader()` it
schedules is a separate `toggleActive` transition. -/
def prefetchRateLimited (s : EngineState) : EngineState :=
  { s with isPremiumUnavailable := true, isPremiumLocked := false }

/-- The `checkVoices` effect: unlock premium once a local premium voice is
reported, a prefetched buffer exists, and premium is not unavailable. -/
def voicesChanged (hasPremiumLocal : Bool) (s : EngineState) : EngineState :=
  if hasPremiumLocal ∧ s.prefetchedBuffer.isSome ∧
      s.isPremiumUnavailable = false then
    { s with isPremiumLocked := false }
  else s

/-- The events that drive the playback engine. -/
inductive EngineEvent where
  | togglePremium (now : ℚ) (gen : GenResult)
  | toggleActive
  | stopAll
  | premiumEnded
  | synthStart
  | synthEnd
  | submit
  | load
  | reset
  | prefetchOk (buffer : AudioBuffer)
  | prefetchQuota
  | voices (hasPremiumLocal : Bool)

/-- One atomic transition of the playback engine. -/
def engineStep (s : EngineState) : EngineEvent → EngineState
  | .togglePremium now gen => togglePremiumVoice now gen s
  | .toggleActive => toggleActiveReader s
  | .stopAll => stopAllPlayback s
  | .premiumEnded => premiumSourceEnded s
  | .synthStart => synthStarted s
  | .synthEnd => synthEnded s
  | .submit => submitGenerated s
  | .load => loadSessionPlayback s
  | .reset => resetPlayback s
  | .prefetchOk buffer => prefetchSucceeded buffer s
  | .prefetchQuota => prefetchRateLimited s
  | .voices h => voicesChanged h s

/-- The initial component state (`useState` initial values). -/
def initialEngineState : EngineState :=
  { activeMode := PlaybackMode.none
    playbackState := .idle
    sourceActive := false
    synthActive := false
    playedOffset := 0
    startTime := 0
    lastSourceOffset := 0
    prefetchedBuffer := Option.none
    isPremiumLocked := true
    isPremiumUnavailable := false
    currentWordIndex := Option.none
    hasSummary := false }

/-- Reachability of engine states from the initial state. -/
inductive EngineReachable : EngineState → Prop where
  | init : EngineReachable initialEngineState
  | next {s : EngineState} (e : EngineEvent) :
      EngineReachable s → EngineReachable (engineStep s e)

/-- The inductive mutual-exclusion invariant: the two audio sources are
never simultaneously live; a live source node implies `(premium, playing)`;
a live utterance outside active mode happens only on the
premium-unavailable fallback path. -/
def engineInv (s : EngineState) : Prop :=
  ¬(s.sourceActive = true ∧ s.synthActive = true) ∧
  (s.sourceActive = true →
    s.activeMode = PlaybackMode.premium ∧ s.playbackState = .playing) ∧
  (s.synthActive = true →
    s.activeMode = PlaybackMode.active ∨ s.isPremiumUnavailable = true)

/-! ## Word segments and highlight lookup (`src/App.tsx`) -/

/-- One entry of the memoized `wordSegments` array in `src/App.tsx`:
`{ text: match[0], start: match.index, end: match.index + match[0].length }`.
The JS field `end` is a Lean keyword and is embedded as `endPos`. -/
structure WordSegment where
  text : String
  start : Nat
  endPos : Nat
deriving DecidableEq

/-- Emit the pending run of non-whitespace characters (if any) as one
segment starting at `start`. -/
def flushRun : List Char → Nat → List WordSegment
  | [], _ => []
  | run, start => [⟨⟨run⟩, start, start + run.length⟩]

/-- The `/\S+/g` scanning loop of `wordSegments`, embedded as a structural
scan: `cs` is the remaining input, `i` the absolute position of its first
character, and `run` the pending maximal run of non-whitespace characters
occupying positions `i - run.length .. i - 1`.  Each completed run becomes
one segment, exactly as each successive `regex.exec` match does. -/
def wordSegmentsAux : List Char → Nat → List Char → List WordSegment
  | [], i, run => flushRun run (i - run.length)
  | c :: cs, i, run =>
    if c.isWhitespace then
      flushRun run (i - run.length) ++ wordSegmentsAux cs (i + 1) []
    else
      wordSegmentsAux cs (i + 1) (run ++ [c])

/-- `wordSegments` from `src/App.tsx` (the `useMemo` value): the segments of
the summary text.  (The `if (!studyData?.summary) return []` guard is the
null/empty case, for which the scan returns `[]` anyway.) -/
def wordSegments (summary : String) : List WordSegment :=
  wordSegmentsAux summary.toList 0 []

/-- The `utterance.onboundary` handler body of `toggleActiveReader`
(`src/App.tsx` lines 367-372): find the first segment whose
`[start, end]` bounds contain the event's character index
(`findIndex(seg => event.charIndex >= seg.start && event.charIndex <= seg.end)`),
and leave the current highlight unchanged when there is none
(`if (matchIdx !== -1)`). -/
def boundaryUpdate (segs : List WordSegment) (charIndex : Nat)
    (currentWordIndex : Option Nat) : Option Nat :=
  match segs.findIdx?
      (fun seg => decide (charIndex ≥ seg.start) &&
        decide (charIndex ≤ seg.endPos)) with
  | some matchIdx => some matchIdx
  | none => currentWordIndex

/-- `seg` is a maximal run of non-whitespace characters of `cs`, tagged with
its absolute start/end offsets: non-empty, within bounds, its text exactly
the characters between its offsets, all of them non-whitespace, and
bordered on each side by the string edge or a whitespace character. -/
def maximalRunAt (cs : List Char) (seg : WordSegment) : Prop :=
  seg.start < seg.endPos ∧
  seg.endPos ≤ cs.length ∧
  seg.text.toList = (cs.take seg.endPos).drop seg.start ∧
  (∀ ch ∈ seg.text.toList, ch.isWhitespace = false) ∧
  (seg.start = 0 ∨
    ∀ ch, cs[seg.start - 1]? = some ch → ch.isWhitespace = true) ∧
  (seg.endPos = cs.length ∨
    ∀ ch, cs[seg.endPos]? = some ch → ch.isWhitespace = true)

/-! ## Quiz shuffling (`src/components/Quiz.tsx`) -/

/-- The option-with-flag record built inside `handleShuffleAndReset`:
`{ text: opt, isCorrect: idx === q.correctAnswerIndex }`. -/
structure OptionMeta where
  text : String
  isCorrect : Bool
deriving DecidableEq

/-- The index drawn by one Fisher-Yates step:
`Math.floor(Math.random() * (i + 1))`, where `r` models the `Math.random()`
draw (a rational in `[0, 1)`). -/
def fyIndex (r : ℚ) (i : Nat) : Nat :=
  (⌊r * (i + 1)⌋).toNat

/-- The destructuring swap `[a[i], a[j]] = [a[j], a[i]]` of `shuffleArray`
(a no-op when an index is out of bounds, which never happens for the
in-range draws produced by `fyIndex`). -/
def listSwap {α : Type} (l : List α) (i j : Nat) : List α :=
  if h : i < l.length ∧ j < l.length then
    (l.set i (l.get ⟨j, h.2⟩)).set j (l.get ⟨i, h.1⟩)
  else l

/-- The `for (let i = newArray.length - 1; i > 0; i--)` loop of
`shuffleArray`: processes `i = k, k-1, ..., 1`, swapping index `i` with the
drawn index `fyIndex (rand i) i`. -/
def shuffleLoop {α : Type} (rand : Nat → ℚ) : List α → Nat → List α
  | l, 0 => l
  | l, i + 1 =>
    shuffleLoop rand (listSwap l (i + 1) (fyIndex (rand (i + 1)) (i + 1))) i

/-- `shuffleArray` from `src/components/Quiz.tsx` (Fisher-Yates), with the
`Math.random()` stream modelled by `rand` (the draw used at loop index
`i`). -/
def shuffleArray {α : Type} (rand : Nat → ℚ) (l : List α) : List α :=
  shuffleLoop rand l (l.length - 1)

/-- The indexed map `q.options.map((opt, idx) => ({ text: opt, isCorrect:
idx === q.correctAnswerIndex }))`, with `idx` starting at `i`. -/
def optionsWithMetadataAux (correct : Int) :
    List String → Nat → List OptionMeta
  | [], _ => []
  | opt :: rest, idx =>
    ⟨opt, ((idx : Int) == correct)⟩ ::
      optionsWithMetadataAux correct rest (idx + 1)

/-- The `optionsWithMetadata` list built for one question inside
`handleShuffleAndReset`. -/
def optionsWithMetadata (q : QuizQuestion) : List OptionMeta :=
  optionsWithMetadataAux q.correctAnswerIndex q.options 0

/-- The per-question body of the `questionOrder.map(q => ...)` in
`handleShuffleAndReset`: shuffle the flagged options, then recover the
correct index with `findIndex(o => o.isCorrect)` (JS `findIndex` yields `-1`
when no element matches). -/
def shuffleQuestion (rand : Nat → ℚ) (q : QuizQuestion) : QuizQuestion :=
  let shuffledOptions := shuffleArray rand (optionsWithMetadata q)
  let newCorrectIndex : Int :=
    match shuffledOptions.findIdx? (fun o => o.isCorrect) with
    | some i => (i : Int)
    | none => -1
  { q with
    options := shuffledOptions.map (fun o => o.text)
    correctAnswerIndex := newCorrectIndex }

/-- The `map` over the shuffled question order, with the impure
`Math.random()` stream modelled by handing each question position `k` its
own draw function `randO k`. -/
def shuffleQuestionsAux (randO : Nat → Nat → ℚ) :
    List QuizQuestion → Nat → List QuizQuestion
  | [], _ => []
  | q :: rest, k =>
    shuffleQuestion (randO k) q :: shuffleQuestionsAux randO rest (k + 1)

/-- `handleShuffleAndReset` from `src/components/Quiz.tsx` (the
`fullyShuffled` value stored into `shuffledQuestions`): shuffle the question
order, then shuffle each question's options while tracking the correct
answer by flag. -/
def handleShuffleAndReset (randQ : Nat → ℚ) (randO : Nat → Nat → ℚ)
    (questions : List QuizQuestion) : List QuizQuestion :=
  shuffleQuestionsAux randO (shuffleArray randQ questions) 0

/-! ## Concrete sample inputs used by witnesses and counterexamples -/

/-- A concrete operation failing with a rate-limit error on every attempt. -/
def alwaysQuotaFn : Nat → CallResult Nat :=
  fun _ => .err ⟨"429 RESOURCE_EXHAUSTED: quota exceeded", some 429⟩

/-- A concrete operation failing with a rate-limit error on the first two
attempts and succeeding on the third. -/
def twoQuotaThenOkFn : Nat → CallResult Nat :=
  fun i => if i < 2 then .err ⟨"got status 429", none⟩ else .ok 7

/-- A concrete stream-opening operation failing with a rate-limit error on
every attempt. -/
def alwaysQuotaOpenStream : Nat → CallResult Unit :=
  fun _ => .err ⟨"429", some 429⟩

/-- A concrete chat history with `n` turns. -/
def sampleHistory (n : Nat) : List ChatMessage :=
  (List.range n).map (fun i => ⟨.user, toString i⟩)

/-- A concrete schema-conformant model response with too few vocabulary and
quiz entries. -/
def underfilledRaw : RawStudyData :=
  { title := "Sample"
    summary := "A short summary."
    language_code := "en"
    audio_instruction := "calm"
    vocabulary := [⟨"osmosis", "diffusion of water"⟩]
    quiz := [⟨"Pick A", ["A", "B"], 0⟩] }

/-! ## Theorems: backoff executor (C3, C4) -/

/-- Helper: on an operation that fails with a quota error on every attempt,
`retryWithBackoff` with `maxRetries = 3` makes 4 invocations, waits
1s/2s/4s between them, and then rethrows the fourth attempt's own error. -/
theorem retryWithBackoff_allQuota {α : Type} (fn : Nat → CallResult α)
    (e : Nat → SvcError) (herr : ∀ i, fn i = .err (e i))
    (hq : ∀ i, isQuotaError (e i) = true) :
    retryWithBackoff fn 3 = .err (e 3) 4 [1000, 2000, 4000] := by
  simp [retryWithBackoff, retryLoop, herr 0, herr 1, herr 2, herr 3,
    hq 0, hq 1, hq 2, hq 3]

/-- C3 counterexample: with the always-quota-failing operation,
`retryWithBackoff` makes exactly 4 invocations but does **not** raise the
terminal "Max retries exceeded" error — it rethrows the fourth attempt's
rate-limit error itself (the throw after the loop is unreachable). -/
theorem retry_exhaustion_rethrows_quota_error :
    (retryWithBackoff alwaysQuotaFn 3).callCount = 4 ∧
    (retryWithBackoff alwaysQuotaFn 3).isMaxRetriesExceeded = false ∧
    retryWithBackoff alwaysQuotaFn 3 =
      .err ⟨"429 RESOURCE_EXHAUSTED: quota exceeded", some 429⟩ 4
        [1000, 2000, 4000] :=
  ⟨rfl, rfl, rfl⟩

/-- C3 (amended): for every operation failing with a rate-limit error on
every invocation, `retryWithBackoff` with `maxRetries = 3` invokes it
exactly 4 times (initial attempt plus 3 retries, with delays 1s/2s/4s) and
then terminates by rethrowing the final invocation's rate-limit error (so it
never reaches the "Max retries exceeded" branch). -/
theorem retry_exhaustion_four_calls {α : Type} (fn : Nat → CallResult α)
    (e : Nat → SvcError) (herr : ∀ i, fn i = .err (e i))
    (hq : ∀ i, isQuotaError (e i) = true) :
    retryWithBackoff fn 3 = .err (e 3) 4 [1000, 2000, 4000] ∧
    (retryWithBackoff fn 3).callCount = 4 ∧
    (retryWithBackoff fn 3).isMaxRetriesExceeded = false := by
  have h := retryWithBackoff_allQuota fn e herr hq
  rw [h]
  exact ⟨rfl, rfl, rfl⟩

/-- C3 witness: the amended exhaustion theorem applied to the concrete
always-failing operation. -/
theorem retry_exhaustion_four_calls_witness :
    retryWithBackoff alwaysQuotaFn 3 =
      .err ⟨"429 RESOURCE_EXHAUSTED: quota exceeded", some 429⟩ 4
        [1000, 2000, 4000] ∧
    (retryWithBackoff alwaysQuotaFn 3).callCount = 4 ∧
    (retryWithBackoff alwaysQuotaFn 3).isMaxRetriesExceeded = false :=
  retry_exhaustion_four_calls alwaysQuotaFn
    (fun _ => ⟨"429 RESOURCE_EXHAUSTED: quota exceeded", some 429⟩)
    (fun _ => rfl) (fun _ => rfl)

/-- C4: for every operation failing with a rate-limit error on exactly its
first two invocations and succeeding on the third, `retryWithBackoff`
returns the third invocation's value, makes exactly 3 invocations, and waits
1000 ms before the second and 2000 ms before the third. -/
theorem retry_success_after_two_quota_failures {α : Type}
    (fn : Nat → CallResult α) (e0 e1 : SvcError) (v : α)
    (h0 : fn 0 = .err e0) (hq0 : isQuotaError e0 = true)
    (h1 : fn 1 = .err e1) (hq1 : isQuotaError e1 = true)
    (h2 : fn 2 = .ok v) :
    retryWithBackoff fn 3 = .ok v 3 [1000, 2000] := by
  simp [retryWithBackoff, retryLoop, h0, h1, h2, hq0, hq1]

/-- C4 witness: the success-path theorem applied to a concrete operation
failing twice with a 429 error, then returning `7`. -/
theorem retry_success_after_two_quota_failures_witness :
    retryWithBackoff twoQuotaThenOkFn 3 = .ok 7 3 [1000, 2000] :=
  retry_success_after_two_quota_failures twoQuotaThenOkFn
    ⟨"got status 429", none⟩ ⟨"got status 429", none⟩ 7
    rfl rfl rfl rfl rfl

/-! ## Theorems: streaming chat is retried (C5) -/

/-- C5 counterexample: contrary to the claim that the streaming
question-answering operation is not retried, `askQuestionAboutDocumentStream`
wraps the stream opening in `retryWithBackoff`, so an always-rate-limited
opener is invoked 4 times with delays between attempts, not once. -/
theorem stream_open_is_retried :
    (askQuestionAboutDocumentStream (fun _ => "")
        alwaysQuotaOpenStream []).streamResult.callCount = 4 ∧
    (askQuestionAboutDocumentStream (fun _ => "")
        alwaysQuotaOpenStream []).streamResult.delayList = [1000, 2000, 4000] :=
  ⟨rfl, rfl⟩

/-- C5 (amended): `askQuestionAboutDocumentStream` retries the stream-opening
call through the backoff executor: a rate-limit failure on every opening
attempt results in exactly 4 invocations (with delays 1s/2s/4s) before the
final rate-limit error propagates to the caller. -/
theorem stream_open_retry_behaviour {σ : Type}
    (summarizeModel : List ChatMessage → String)
    (openStream : Nat → CallResult σ) (e : Nat → SvcError)
    (history : List ChatMessage)
    (herr : ∀ i, openStream i = .err (e i))
    (hq : ∀ i, isQuotaError (e i) = true) :
    (askQuestionAboutDocumentStream summarizeModel openStream
        history).streamResult = .err (e 3) 4 [1000, 2000, 4000] := by
  show retryWithBackoff openStream 3 = _
  exact retryWithBackoff_allQuota openStream e herr hq

/-- C5 witness: the amended retry-behaviour theorem applied to the concrete
always-rate-limited stream opener. -/
theorem stream_open_retry_behaviour_witness :
    (askQuestionAboutDocumentStream (fun _ => "")
        alwaysQuotaOpenStream []).streamResult =
      .err ⟨"429", some 429⟩ 4 [1000, 2000, 4000] :=
  stream_open_retry_behaviour (fun _ => "") alwaysQuotaOpenStream
    (fun _ => ⟨"429", some 429⟩) [] (fun _ => rfl) (fun _ => rfl)

/-! ## Theorems: history compaction (C6) -/

/-- C6: for a history of `n` turns, if `n > 10` the compactor keeps exactly
the 10 most recent turns unchanged and produces a non-empty digest built
from the summarization of the oldest `n - 10` turns; if `n ≤ 10` all turns
pass through unchanged and the digest is empty. -/
theorem compactHistory_spec (summarizeModel : List ChatMessage → String)
    (history : List ChatMessage) :
    (history.length > 10 →
      (compactHistory summarizeModel history).processedHistory =
        history.drop (history.length - 10) ∧
      (compactHistory summarizeModel history).processedHistory.length = 10 ∧
      (compactHistory summarizeModel history).backgroundContext =
        historyContextPrefix ++
          summarizeOldHistory summarizeModel
            (history.take (history.length - 10)) ∧
      (compactHistory summarizeModel history).backgroundContext ≠ "") ∧
    (history.length ≤ 10 →
      (compactHistory summarizeModel history).processedHistory = history ∧
      (compactHistory summarizeModel history).backgroundContext = "") := by
  constructor
  · intro h
    rw [compactHistory, if_pos h]
    refine ⟨rfl, ?_, rfl, ?_⟩
    · simp only [List.length_drop]
      omega
    · intro hc
      have hlen := congrArg String.length hc
      rw [String.length_append] at hlen
      have h1 : 0 < historyContextPrefix.length := by decide
      have h2 : ("" : String).length = 0 := rfl
      omega
  · intro h
    rw [compactHistory, if_neg (by omega)]
    exact ⟨rfl, rfl⟩

/-- C6 witness: the compaction theorem applied to a concrete 15-turn history
(10 most recent kept, non-empty digest) and a concrete 8-turn history
(everything kept, empty digest). -/
theorem compactHistory_spec_witness :
    ((compactHistory (fun _ => "digest")
        (sampleHistory 15)).processedHistory =
      (sampleHistory 15).drop 5 ∧
     (compactHistory (fun _ => "digest")
        (sampleHistory 15)).processedHistory.length = 10 ∧
     (compactHistory (fun _ => "digest")
        (sampleHistory 15)).backgroundContext ≠ "") ∧
    ((compactHistory (fun _ => "digest")
        (sampleHistory 8)).processedHistory = sampleHistory 8 ∧
     (compactHistory (fun _ => "digest")
        (sampleHistory 8)).backgroundContext = "") := by
  have h15 := (compactHistory_spec (fun _ => "digest") (sampleHistory 15)).1
    (by decide)
  have h8 := (compactHistory_spec (fun _ => "digest") (sampleHistory 8)).2
    (by decide)
  exact ⟨⟨h15.1, h15.2.1, h15.2.2.2⟩, h8⟩

/-! ## Theorems: guide generation (C2) -/

/-- C2 counterexample: `processLectureNotes` successfully returns a
StudyGuide for a schema-conformant response with only 1 vocabulary entry and
1 quiz question — it enforces no cardinality (or index-range) validation, so
a returned guide need not satisfy the claimed invariant. -/
theorem processLectureNotes_no_cardinality_validation :
    processLectureNotes (some underfilledRaw) =
      .ok (rawToStudyData underfilledRaw) ∧
    ¬ guideWellFormed (rawToStudyData underfilledRaw) := by
  exact ⟨rfl, by decide⟩

/-- C2 (amended): `processLectureNotes` passes the parsed model response
through unvalidated (renaming only `language_code`/`audio_instruction`), so
a successfully returned guide has exactly the response's vocabulary and quiz
sequences, and the claimed invariant (10 vocabulary entries, 10 quiz items,
all answer indices in range) holds for the result exactly when the model's
response itself satisfies it. -/
theorem processLectureNotes_passthrough (responseData : Option RawStudyData)
    (g : StudyData) (h : processLectureNotes responseData = .ok g) :
    ∃ raw, responseData = some raw ∧ g = rawToStudyData raw ∧
      g.vocabulary = raw.vocabulary ∧ g.quiz = raw.quiz ∧
      (guideWellFormed g ↔
        (raw.vocabulary.length = 10 ∧ raw.quiz.length = 10 ∧
          ∀ q ∈ raw.quiz, quizItemWellFormed q)) := by
  cases responseData with
  | none => simp [processLectureNotes] at h
  | some raw =>
    refine ⟨raw, rfl, ?_, ?_, ?_, ?_⟩ <;>
      simp only [processLectureNotes, Except.ok.injEq] at h <;>
      subst h <;> rfl

/-- C2 witness: the pass-through theorem applied to the concrete underfilled
response. -/
theorem processLectureNotes_passthrough_witness :
    ∃ raw, (some underfilledRaw) = some raw ∧
      rawToStudyData underfilledRaw = rawToStudyData raw ∧
      (rawToStudyData underfilledRaw).vocabulary = raw.vocabulary ∧
      (rawToStudyData underfilledRaw).quiz = raw.quiz ∧
      (guideWellFormed (rawToStudyData underfilledRaw) ↔
        (raw.vocabulary.length = 10 ∧ raw.quiz.length = 10 ∧
          ∀ q ∈ raw.quiz, quizItemWellFormed q)) :=
  processLectureNotes_passthrough (some underfilledRaw)
    (rawToStudyData underfilledRaw) rfl

/-! ## Theorems: chat-stream assembly (C9) -/

theorem concatAll_append (a b : List String) :
    concatAll (a ++ b) = concatAll a ++ concatAll b := by
  induction a with
  | nil => simp [concatAll]
  | cons d ds ih => simp [concatAll, ih, String.append_assoc]

/-- The chunk fold rewrites only the trailing model turn: if the log ends in
a model turn holding the accumulator, the fold ends in a model turn holding
the accumulator extended by the concatenation of the chunks. -/
theorem foldl_applyChunk_eq (ds : List String) :
    ∀ (fa : String) (pre : List ChatMessage),
      ds.foldl applyChunk (fa, pre ++ [⟨.model, fa⟩]) =
        (fa ++ concatAll ds, pre ++ [⟨.model, fa ++ concatAll ds⟩]) := by
  induction ds with
  | nil => intro fa pre; simp [concatAll]
  | cons d ds ih =>
    intro fa pre
    by_cases hd : d = ""
    · subst hd
      simp only [List.foldl_cons, applyChunk, if_pos rfl]
      simpa [concatAll] using ih fa pre
    · simp only [List.foldl_cons, applyChunk, if_neg hd,
        List.dropLast_concat]
      simpa [concatAll, String.append_assoc] using ih (fa ++ d) pre

/-- C9: for every finite sequence of stream deltas, `handleSendChatMessage`
appends exactly one user turn and one model turn to the log, the model
turn's final content is exactly the concatenation of all deltas in arrival
order, after `k` chunks the model turn holds the concatenation of the first
`k` deltas, and each intermediate content is a prefix of the next
(monotonically prefix-growing). -/
theorem chat_stream_assembly (chatLog : List ChatMessage)
    (chatInput : String) (deltas : List String)
    (h : jsTrim chatInput ≠ "") :
    handleSendChatMessage chatLog chatInput deltas =
      chatLog ++ [⟨.user, jsTrim chatInput⟩, ⟨.model, concatAll deltas⟩] ∧
    (∀ k, streamStateAfter chatLog (jsTrim chatInput) deltas k =
      (concatAll (deltas.take k),
        chatLog ++ [⟨.user, jsTrim chatInput⟩,
          ⟨.model, concatAll (deltas.take k)⟩])) ∧
    (∀ k, k < deltas.length →
      ∃ t, concatAll (deltas.take (k + 1)) = concatAll (deltas.take k) ++ t) := by
  have key : ∀ (ds : List String),
      ds.foldl applyChunk
        ("", chatLog ++ [⟨.user, jsTrim chatInput⟩, ⟨.model, ""⟩]) =
        (concatAll ds, chatLog ++ [⟨.user, jsTrim chatInput⟩,
          ⟨.model, concatAll ds⟩]) := by
    intro ds
    have := foldl_applyChunk_eq ds ""
      (chatLog ++ [⟨Role.user, jsTrim chatInput⟩])
    simpa using this
  refine ⟨?_, ?_, ?_⟩
  · rw [handleSendChatMessage, if_neg h]
    simpa using congrArg Prod.snd (key deltas)
  · intro k
    rw [streamStateAfter]
    exact key (deltas.take k)
  · intro k hk
    refine ⟨deltas.get ⟨k, hk⟩ ++ "", ?_⟩
    rw [← List.take_concat_get deltas k hk, List.concat_eq_append,
      concatAll_append]
    rfl

/-- C9 witness: the stream-assembly theorem applied to the deltas
`["Hel", "lo ", " world"]`: one model turn is appended and its final content
is the concatenation `"Hello  world"`. -/
theorem chat_stream_assembly_witness :
    jsTrim "What is osmosis?" ≠ "" ∧
    handleSendChatMessage [] "What is osmosis?" ["Hel", "lo ", " world"] =
      [⟨.user, "What is osmosis?"⟩, ⟨.model, "Hello  world"⟩] := by
  have h := chat_stream_assembly [] "What is osmosis?"
    ["Hel", "lo ", " world"] (by decide)
  exact ⟨by decide, by rw [h.1]; decide⟩

/-! ## Theorems: the playback engine invariant (C1) -/

theorem engineInv_init : engineInv initialEngineState := by
  simp [engineInv, initialEngineState]

theorem engineInv_stopAll (s : EngineState) :
    engineInv (stopAllPlayback s) := by
  simp [engineInv, stopAllPlayback]

theorem engineInv_playFromBuffer (b : AudioBuffer) (off now : ℚ)
    (s : EngineState) (hsynth : s.synthActive = false)
    (hmode : s.activeMode = PlaybackMode.premium) :
    engineInv (playFromBuffer b off now s) := by
  simp [engineInv, playFromBuffer, hsynth, hmode]

theorem premiumColdStart_inv (now : ℚ) (gen : GenResult) (s : EngineState)
    (hsynth : s.synthActive = false) (hsrc : s.sourceActive = false) :
    engineInv (premiumColdStart now gen s) := by
  rw [premiumColdStart]
  by_cases hsum : s.hasSummary = false
  · rw [if_pos hsum]
    exact ⟨by simp [hsrc], by simp [hsrc], by simp [hsynth]⟩
  · rw [if_neg hsum]
    have hsum' : s.hasSummary = true := by
      cases hx : s.hasSummary
      · exact absurd hx hsum
      · rfl
    cases hpb : s.prefetchedBuffer with
    | some buffer =>
      simp only [hpb]
      exact engineInv_playFromBuffer _ _ _ _ (by simpa using hsynth) rfl
    | none =>
      simp only [hpb]
      cases gen with
      | ok buffer =>
        exact engineInv_playFromBuffer _ _ _ _ (by simpa using hsynth) rfl
      | rateLimited =>
        simp [engineInv, toggleActiveReader, toggleActiveReaderMain,
          stopAllPlayback, hsum']
      | failed =>
        exact ⟨by simp [hsrc], by simp [hsrc], by simp [hsynth]⟩

theorem togglePremiumMain_inv (now : ℚ) (gen : GenResult) (s : EngineState)
    (hinv : engineInv s) (hsynth : s.synthActive = false) :
    engineInv (togglePremiumMain now gen s) := by
  obtain ⟨h1, h2, h3⟩ := hinv
  rw [togglePremiumMain]
  by_cases hA : s.activeMode = PlaybackMode.premium ∧ s.playbackState = .playing
  · rw [if_pos hA]
    by_cases hS : s.sourceActive = true
    · rw [if_pos hS]
      exact ⟨by simp, by simp, by simp [hsynth]⟩
    · rw [if_neg hS]
      exact ⟨h1, h2, h3⟩
  · rw [if_neg hA]
    have hsrc : s.sourceActive = false := by
      cases hx : s.sourceActive
      · rfl
      · exact absurd (h2 hx) hA
    by_cases hB : s.activeMode = PlaybackMode.premium ∧ s.playbackState = .paused
    · rw [if_pos hB]
      cases hpb : s.prefetchedBuffer with
      | some buffer =>
        exact engineInv_playFromBuffer _ _ _ _ hsynth hB.1
      | none =>
        exact premiumColdStart_inv now gen s hsynth hsrc
    · rw [if_neg hB]
      exact premiumColdStart_inv now gen s hsynth hsrc

theorem togglePremiumVoice_inv (now : ℚ) (gen : GenResult)
    (s : EngineState) (hinv : engineInv s) :
    engineInv (togglePremiumVoice now gen s) := by
  rw [togglePremiumVoice]
  by_cases hg : (s.isPremiumLocked || s.isPremiumUnavailable) = true
  · rw [if_pos hg]
    exact hinv
  · rw [if_neg hg]
    have hunav : s.isPremiumUnavailable = false := by
      cases hx : s.isPremiumUnavailable
      · rfl
      · exact absurd (by simp [hx]) hg
    by_cases hact : s.activeMode = PlaybackMode.active
    · rw [if_pos hact]
      exact togglePremiumMain_inv now gen _ (engineInv_stopAll s)
        (by simp [stopAllPlayback])
    · rw [if_neg hact]
      have hsynth : s.synthActive = false := by
        cases hx : s.synthActive
        · rfl
        · rcases hinv.2.2 hx with h | h
          · exact absurd h hact
          · rw [hunav] at h
            cases h
      exact togglePremiumMain_inv now gen s hinv hsynth

theorem toggleActiveReaderMain_inv (s : EngineState) (hinv : engineInv s)
    (hsrc : s.sourceActive = false) :
    engineInv (toggleActiveReaderMain s) := by
  rw [toggleActiveReaderMain]
  by_cases hact : s.activeMode = PlaybackMode.active
  · rw [if_pos hact]
    split_ifs <;>
      exact ⟨by simp [hsrc], by simp [hsrc],
        fun _ => Or.inl (by simpa using hact)⟩
  · rw [if_neg hact]
    by_cases hsum : s.hasSummary = false
    · rw [if_pos hsum]
      exact hinv
    · rw [if_neg hsum]
      exact ⟨by simp [hsrc], by simp [hsrc], fun _ => Or.inl rfl⟩

theorem toggleActiveReader_inv (s : EngineState) (hinv : engineInv s) :
    engineInv (toggleActiveReader s) := by
  rw [toggleActiveReader]
  by_cases hprem : s.activeMode = PlaybackMode.premium
  · rw [if_pos hprem]
    exact toggleActiveReaderMain_inv _ (engineInv_stopAll s)
      (by simp [stopAllPlayback])
  · rw [if_neg hprem]
    have hsrc : s.sourceActive = false := by
      cases hx : s.sourceActive
      · rfl
      · exact absurd (hinv.2.1 hx).1 hprem
    exact toggleActiveReaderMain_inv s hinv hsrc

theorem premiumSourceEnded_inv (s : EngineState) (hinv : engineInv s) :
    engineInv (premiumSourceEnded s) := by
  rw [premiumSourceEnded]
  by_cases hx : s.sourceActive = true
  · rw [if_pos hx]
    have hsy : s.synthActive = false := by
      cases hy : s.synthActive
      · rfl
      · exact absurd ⟨hx, hy⟩ hinv.1
    dsimp only
    split_ifs <;> exact ⟨by simp [hsy], by simp, by simp [hsy]⟩
  · rw [if_neg hx]
    exact hinv

theorem synthStarted_inv (s : EngineState) (hinv : engineInv s) :
    engineInv (synthStarted s) := by
  rw [synthStarted]
  by_cases hx : s.synthActive = true
  · rw [if_pos hx]
    have hsrc : s.sourceActive = false := by
      cases hy : s.sourceActive
      · rfl
      · exact absurd ⟨hy, hx⟩ hinv.1
    exact ⟨by simp [hsrc], by simp [hsrc],
      fun h => by simpa using hinv.2.2 (by simpa using h)⟩
  · rw [if_neg hx]
    exact hinv

theorem synthEnded_inv (s : EngineState) (hinv : engineInv s) :
    engineInv (synthEnded s) := by
  rw [synthEnded]
  by_cases hx : s.synthActive = true
  · rw [if_pos hx]
    have hsrc : s.sourceActive = false := by
      cases hy : s.sourceActive
      · rfl
      · exact absurd ⟨hy, hx⟩ hinv.1
    dsimp only
    split_ifs <;> exact ⟨by simp [hsrc], by simp [hsrc], by simp⟩
  · rw [if_neg hx]
    exact hinv

theorem engineStep_inv (s : EngineState) (hinv : engineInv s)
    (e : EngineEvent) : engineInv (engineStep s e) := by
  cases e with
  | togglePremium now gen => exact togglePremiumVoice_inv now gen s hinv
  | toggleActive => exact toggleActiveReader_inv s hinv
  | stopAll => exact engineInv_stopAll s
  | premiumEnded => exact premiumSourceEnded_inv s hinv
  | synthStart => exact synthStarted_inv s hinv
  | synthEnd => exact synthEnded_inv s hinv
  | submit => simp [engineStep, submitGenerated, stopAllPlayback, engineInv]
  | load => simp [engineStep, loadSessionPlayback, stopAllPlayback, engineInv]
  | reset => simp [engineStep, resetPlayback, stopAllPlayback, engineInv]
  | prefetchOk buffer =>
    obtain ⟨h1, h2, h3⟩ := hinv
    exact ⟨by simpa [prefetchSucceeded] using h1,
      by simpa [prefetchSucceeded] using h2,
      by simpa [prefetchSucceeded] using h3⟩
  | prefetchQuota =>
    obtain ⟨h1, h2, h3⟩ := hinv
    exact ⟨by simpa [prefetchRateLimited] using h1,
      by simpa [prefetchRateLimited] using h2,
      fun _ => Or.inr rfl⟩
  | voices hasLocal =>
    rw [engineStep, voicesChanged]
    split_ifs
    · obtain ⟨h1, h2, h3⟩ := hinv
      exact ⟨by simpa using h1, by simpa using h2, by simpa using h3⟩
    · exact hinv

/-- Every reachable engine state satisfies the mutual-exclusion
invariant. -/
theorem engineReachable_inv (s : EngineState) (h : EngineReachable s) :
    engineInv s := by
  induction h with
  | init => exact engineInv_init
  | next e _ ih => exact engineStep_inv _ ih e

/-- C1: (a) in every reachable state of the playback engine, the premium
source node and the local speech utterance are never live simultaneously,
and at most one of the two modes is in a `{playing, paused}` state;
(b) when `togglePremiumVoice` runs with its guards open while
`activeMode = 'active'`, its entire effect equals running the premium
start/pause/resume logic on the state already reset by `stopAllPlayback`
(the stop runs synchronously first); (c) symmetrically, `toggleActiveReader`
invoked while `activeMode = 'premium'` equals the active-reader logic run on
the `stopAllPlayback`-reset state. -/
theorem playback_mutual_exclusion :
    (∀ s : EngineState, EngineReachable s →
      ¬(s.sourceActive = true ∧ s.synthActive = true) ∧
      ¬((s.activeMode = PlaybackMode.premium ∧
          (s.playbackState = .playing ∨ s.playbackState = .paused)) ∧
        (s.activeMode = PlaybackMode.active ∧
          (s.playbackState = .playing ∨ s.playbackState = .paused)))) ∧
    (∀ (now : ℚ) (gen : GenResult) (s : EngineState),
      s.isPremiumLocked = false → s.isPremiumUnavailable = false →
      s.activeMode = PlaybackMode.active →
      togglePremiumVoice now gen s =
        togglePremiumMain now gen (stopAllPlayback s)) ∧
    (∀ s : EngineState, s.activeMode = PlaybackMode.premium →
      toggleActiveReader s = toggleActiveReaderMain (stopAllPlayback s)) := by
  refine ⟨?_, ?_, ?_⟩
  · intro s hs
    have hinv := engineReachable_inv s hs
    refine ⟨hinv.1, ?_⟩
    rintro ⟨⟨hp, -⟩, ⟨ha, -⟩⟩
    rw [hp] at ha
    cases ha
  · intro now gen s hlock hunav hact
    rw [togglePremiumVoice, hlock, hunav, if_neg (by simp), if_pos hact]
  · intro s hprem
    rw [toggleActiveReader, if_pos hprem]

/-- C1 witness: the invariant applied to the initial state, and the
synchronous-stop factorizations applied to concrete states sitting in the
other mode. -/
theorem playback_mutual_exclusion_witness :
    (¬(initialEngineState.sourceActive = true ∧
        initialEngineState.synthActive = true)) ∧
    togglePremiumVoice 0 GenResult.failed
        { initialEngineState with
          activeMode := PlaybackMode.active
          synthActive := true
          playbackState := .playing
          isPremiumLocked := false } =
      togglePremiumMain 0 GenResult.failed
        (stopAllPlayback
          { initialEngineState with
            activeMode := PlaybackMode.active
            synthActive := true
            playbackState := .playing
            isPremiumLocked := false }) ∧
    toggleActiveReader
        { initialEngineState with
          activeMode := PlaybackMode.premium
          sourceActive := true
          playbackState := .playing } =
      toggleActiveReaderMain
        (stopAllPlayback
          { initialEngineState with
            activeMode := PlaybackMode.premium
            sourceActive := true
            playbackState := .playing }) := by
  refine ⟨?_, ?_, ?_⟩
  · exact (playback_mutual_exclusion.1 initialEngineState
      EngineReachable.init).1
  · exact playback_mutual_exclusion.2.1 0 GenResult.failed _ rfl rfl rfl
  · exact playback_mutual_exclusion.2.2 _ rfl

/-! ## Theorems: premium pause/resume fidelity (C7) -/

theorem jsMod_zero (b : ℚ) : jsMod 0 b = 0 := by
  simp [jsMod]

/-- C7: starting premium playback from a cached buffer at offset 0, pausing
after elapsed time `t`, then resuming: the first start plays from offset 0,
the pause accumulates exactly `t` into the played offset, keeps the cached
buffer and enters `(premium, paused)` with the source stopped, and the
resume starts the next source node at offset `t` modulo the buffer's
duration. -/
theorem premium_pause_resume_fidelity (buffer : AudioBuffer)
    (t now0 now2 : ℚ) (gen : GenResult) (s0 : EngineState)
    (hbuf : s0.prefetchedBuffer = some buffer)
    (hlock : s0.isPremiumLocked = false)
    (hunav : s0.isPremiumUnavailable = false)
    (hmode : s0.activeMode = PlaybackMode.none)
    (hpb : s0.playbackState = .idle)
    (hsum : s0.hasSummary = true)
    (hoff : s0.playedOffset = 0) :
    (togglePremiumVoice now0 gen s0).activeMode = PlaybackMode.premium ∧
    (togglePremiumVoice now0 gen s0).playbackState = .playing ∧
    (togglePremiumVoice now0 gen s0).lastSourceOffset = 0 ∧
    (togglePremiumVoice (now0 + t) gen
        (togglePremiumVoice now0 gen s0)).playbackState = .paused ∧
    (togglePremiumVoice (now0 + t) gen
        (togglePremiumVoice now0 gen s0)).playedOffset = t ∧
    (togglePremiumVoice (now0 + t) gen
        (togglePremiumVoice now0 gen s0)).prefetchedBuffer = some buffer ∧
    (togglePremiumVoice (now0 + t) gen
        (togglePremiumVoice now0 gen s0)).sourceActive = false ∧
    (togglePremiumVoice now2 gen (togglePremiumVoice (now0 + t) gen
        (togglePremiumVoice now0 gen s0))).playbackState = .playing ∧
    (togglePremiumVoice now2 gen (togglePremiumVoice (now0 + t) gen
        (togglePremiumVoice now0 gen s0))).lastSourceOffset =
      jsMod t buffer.duration := by
  have h1 : togglePremiumVoice now0 gen s0 =
      playFromBuffer buffer 0 now0
        { s0 with
          activeMode := PlaybackMode.premium
          prefetchedBuffer := some buffer } := by
    rw [togglePremiumVoice,
      if_neg (by rw [hlock, hunav]; simp),
      if_neg (by rw [hmode]; simp),
      togglePremiumMain,
      if_neg (by rw [hmode]; simp),
      if_neg (by rw [hmode]; simp),
      premiumColdStart,
      if_neg (by rw [hsum]; simp)]
    simp only [hbuf]
  set s1 := togglePremiumVoice now0 gen s0 with hs1def
  have h2 : togglePremiumVoice (now0 + t) gen s1 =
      { s1 with
        playedOffset := s1.playedOffset + ((now0 + t) - s1.startTime)
        sourceActive := false
        playbackState := .paused } := by
    rw [togglePremiumVoice,
      if_neg (by rw [h1]; simp [playFromBuffer, hlock, hunav]),
      if_neg (by rw [h1]; simp [playFromBuffer]),
      togglePremiumMain,
      if_pos (by rw [h1]; simp [playFromBuffer]),
      if_pos (by rw [h1]; simp [playFromBuffer])]
  set s2 := togglePremiumVoice (now0 + t) gen s1 with hs2def
  have hoff2 : s2.playedOffset = t := by
    rw [h2]
    show s1.playedOffset + ((now0 + t) - s1.startTime) = t
    rw [h1]
    show s0.playedOffset + ((now0 + t) - now0) = t
    rw [hoff]
    ring
  have hbuf2 : s2.prefetchedBuffer = some buffer := by
    rw [h2]
    show s1.prefetchedBuffer = some buffer
    rw [h1]
    rfl
  have h3 : togglePremiumVoice now2 gen s2 =
      playFromBuffer buffer s2.playedOffset now2 s2 := by
    rw [togglePremiumVoice,
      if_neg (by rw [h2, h1]; simp [playFromBuffer, hlock, hunav]),
      if_neg (by rw [h2, h1]; simp [playFromBuffer]),
      togglePremiumMain,
      if_neg (by rw [h2]; simp),
      if_pos (by rw [h2, h1]; simp [playFromBuffer])]
    simp only [hbuf2]
  refine ⟨?_, ?_, ?_, ?_, ?_, hbuf2, ?_, ?_, ?_⟩
  · rw [h1]; rfl
  · rw [h1]; rfl
  · rw [h1]
    show jsMod 0 buffer.duration = 0
    exact jsMod_zero buffer.duration
  · rw [h2]
  · exact hoff2
  · rw [h2]
  · rw [h3]; rfl
  · rw [h3]
    show jsMod s2.playedOffset buffer.duration = jsMod t buffer.duration
    rw [hoff2]

/-- C7 witness: the pause/resume theorem applied to a concrete unlocked
state holding a cached 10-second buffer, with start time 5 and elapsed
time 3. -/
theorem premium_pause_resume_fidelity_witness :
    (togglePremiumVoice 20 GenResult.failed (togglePremiumVoice (5 + 3)
        GenResult.failed (togglePremiumVoice 5 GenResult.failed
          { initialEngineState with
            prefetchedBuffer := some ⟨10⟩
            isPremiumLocked := false
            hasSummary := true }))).lastSourceOffset =
      jsMod 3 (10 : ℚ) := by
  have h := premium_pause_resume_fidelity ⟨10⟩ 3 5 20 GenResult.failed
    { initialEngineState with
      prefetchedBuffer := some ⟨10⟩
      isPremiumLocked := false
      hasSummary := true }
    rfl rfl rfl rfl rfl rfl rfl
  exact h.2.2.2.2.2.2.2.2

/-! ## Theorems: word segments and highlight lookup (C8) -/

/-- Master lemma for the segment scanner.  `g` is the whole character list;
the scanner is at absolute position `i` with suffix `cs = g.drop i` left to
read and a pending all-non-whitespace run occupying positions
`i - run.length .. i - 1`, bordered on the left by the string edge or a
whitespace character.  Then every emitted segment is a maximal run of `g`
starting at or after the pending run, every non-whitespace position from the
pending run onward is covered by some emitted segment, and the segments are
emitted strictly left to right. -/
theorem wordSegmentsAux_spec (g : List Char) :
    ∀ (cs : List Char) (i : Nat) (run : List Char),
      g.drop i = cs → i ≤ g.length → run.length ≤ i →
      (g.take i).drop (i - run.length) = run →
      (∀ ch ∈ run, ch.isWhitespace = false) →
      (i - run.length = 0 ∨
        ∀ ch, g[i - run.length - 1]? = some ch → ch.isWhitespace = true) →
      (∀ seg ∈ wordSegmentsAux cs i run,
        maximalRunAt g seg ∧ i - run.length ≤ seg.start) ∧
      (∀ j ch, i - run.length ≤ j → g[j]? = some ch →
        ch.isWhitespace = false →
        ∃ seg ∈ wordSegmentsAux cs i run, seg.start ≤ j ∧ j < seg.endPos) ∧
      List.Chain' (fun a b => a.endPos < b.start) (wordSegmentsAux cs i run) := by
  intro cs
  induction cs with
  | nil =>
    intro i run hdrop hile hrl hslice hnws hleft
    have hlen : g.length ≤ i := List.drop_eq_nil_iff.mp hdrop
    cases run with
    | nil =>
      refine ⟨?_, ?_, ?_⟩
      · intro seg hseg
        simp [wordSegmentsAux, flushRun] at hseg
      · intro j ch hj hget hwsf
        simp only [List.length_nil, Nat.sub_zero] at hj
        rw [List.getElem?_eq_none (by omega)] at hget
        cases hget
      · simp [wordSegmentsAux, flushRun]
    | cons r rs =>
      have hL : (r :: rs).length = rs.length + 1 := rfl
      have hout : wordSegmentsAux [] i (r :: rs) =
          [⟨⟨r :: rs⟩, i - (r :: rs).length,
            i - (r :: rs).length + (r :: rs).length⟩] := rfl
      refine ⟨?_, ?_, ?_⟩
      · intro seg hseg
        rw [hout, List.mem_singleton] at hseg
        subst hseg
        dsimp only [maximalRunAt, String.toList]
        refine ⟨⟨by omega, by omega, ?_, hnws, hleft, ?_⟩, le_refl _⟩
        · rw [show i - (r :: rs).length + (r :: rs).length = i from by omega]
          exact hslice.symm
        · left
          omega
      · intro j ch hj hget hwsf
        have hjlt : j < g.length := by
          by_contra hcon
          rw [List.getElem?_eq_none (by omega)] at hget
          cases hget
        refine ⟨_, by rw [hout]; exact List.mem_singleton.mpr rfl, hj, ?_⟩
        show j < i - (r :: rs).length + (r :: rs).length
        omega
      · rw [hout]
        exact List.chain'_singleton _
  | cons c cs' ih =>
    intro i run hdrop hile hrl hslice hnws hleft
    have hlt : i < g.length := by
      by_contra hcon
      rw [List.drop_eq_nil_of_le (by omega)] at hdrop
      cases hdrop
    have hgi : g[i]? = some c := by
      have h0 := List.getElem?_drop g i 0
      rw [hdrop] at h0
      simpa using h0.symm
    have hdrop' : g.drop (i + 1) = cs' := by
      have h0 := List.tail_drop g i
      rw [hdrop] at h0
      simpa using h0.symm
    by_cases hws : c.isWhitespace
    · -- whitespace: flush the pending run, restart with an empty run
      have ihA := ih (i + 1) [] hdrop' (by omega) (by simp)
        (List.drop_eq_nil_of_le (by rw [List.length_take]; exact min_le_left _ _))
        (by intro ch hch; cases hch)
        (Or.inr (by
          intro ch hch
          have : (i + 1 - List.length ([] : List Char) - 1) = i := by simp
          rw [this, hgi] at hch
          cases hch
          exact hws))
      obtain ⟨ih1, ih2, ih3⟩ := ihA
      have hbound1 : ∀ seg ∈ wordSegmentsAux cs' (i + 1) [],
          i + 1 ≤ seg.start := by
        intro seg hseg
        have := (ih1 seg hseg).2
        simpa using this
      cases run with
      | nil =>
        have hout : wordSegmentsAux (c :: cs') i [] =
            wordSegmentsAux cs' (i + 1) [] := by
          simp [wordSegmentsAux, hws, flushRun]
        rw [hout]
        refine ⟨?_, ?_, ih3⟩
        · intro seg hseg
          refine ⟨(ih1 seg hseg).1, ?_⟩
          have := hbound1 seg hseg
          simp only [List.length_nil, Nat.sub_zero]
          omega
        · intro j ch hj hget hwsf
          have hij : i ≤ j := by simpa using hj
          rcases Nat.eq_or_lt_of_le hij with hji | hji
          · rw [← hji, hgi] at hget
            cases hget
            rw [hws] at hwsf
            cases hwsf
          · exact ih2 j ch (by simpa using hji) hget hwsf
      | cons r rs =>
        have hL : (r :: rs).length = rs.length + 1 := rfl
        have hout : wordSegmentsAux (c :: cs') i (r :: rs) =
            ⟨⟨r :: rs⟩, i - (r :: rs).length,
              i - (r :: rs).length + (r :: rs).length⟩ ::
              wordSegmentsAux cs' (i + 1) [] := by
          simp [wordSegmentsAux, hws, flushRun]
        rw [hout]
        have hie : i - (r :: rs).length + (r :: rs).length = i := by omega
        refine ⟨?_, ?_, ?_⟩
        · intro seg hseg
          rcases List.mem_cons.mp hseg with hf | hrec
          · subst hf
            dsimp only [maximalRunAt, String.toList]
            refine ⟨⟨by omega, by omega, ?_, hnws, hleft, ?_⟩, le_refl _⟩
            · rw [hie]
              exact hslice.symm
            · right
              intro ch hch
              rw [hie, hgi] at hch
              cases hch
              exact hws
          · exact ⟨(ih1 seg hrec).1, by have := hbound1 seg hrec; omega⟩
        · intro j ch hj hget hwsf
          by_cases hji : j < i
          · refine ⟨_, List.mem_cons_self _ _, hj, ?_⟩
            show j < i - (r :: rs).length + (r :: rs).length
            omega
          · rcases Nat.eq_or_lt_of_le (Nat.le_of_not_lt hji) with hje | hje
            · rw [← hje, hgi] at hget
              cases hget
              rw [hws] at hwsf
              cases hwsf
            · obtain ⟨seg, hseg, hs1, hs2⟩ :=
                ih2 j ch (by simpa using hje) hget hwsf
              exact ⟨seg, List.mem_cons_of_mem _ hseg, hs1, hs2⟩
        · refine List.chain'_cons'.mpr ⟨?_, ih3⟩
          intro y hy
          have hmem := List.mem_of_mem_head? hy
          have := hbound1 y hmem
          show i - (r :: rs).length + (r :: rs).length < y.start
          omega
    · -- non-whitespace: extend the pending run
      have hws' : c.isWhitespace = false := by simpa using hws
      have htklen : i - run.length ≤ (g.take i).length := by
        rw [List.length_take]
        exact le_min_iff.mpr ⟨by omega, by omega⟩
      have hpre : (g.take (i + 1)).drop (i + 1 - (run ++ [c]).length) =
          run ++ [c] := by
        rw [List.take_succ, List.length_append]
        rw [show i + 1 - (run.length + [c].length) = i - run.length from by
          simp]
        rw [List.drop_append_of_le_length htklen, hslice, hgi]
        rfl
      have ihA := ih (i + 1) (run ++ [c]) hdrop' (by omega)
        (by rw [List.length_append]; simp; omega)
        hpre
        (by
          intro ch hch
          rcases List.mem_append.mp hch with h | h
          · exact hnws ch h
          · rw [List.mem_singleton] at h
            subst h
            exact hws')
        (by
          rw [List.length_append,
            show i + 1 - (run.length + [c].length) = i - run.length from by
              simp]
          exact hleft)
      obtain ⟨ih1, ih2, ih3⟩ := ihA
      have hout : wordSegmentsAux (c :: cs') i run =
          wordSegmentsAux cs' (i + 1) (run ++ [c]) := by
        simp [wordSegmentsAux, hws']
      have heq : i + 1 - (run ++ [c]).length = i - run.length := by
        rw [List.length_append]
        simp
      rw [hout]
      rw [heq] at ih1 ih2
      exact ⟨ih1, ih2, ih3⟩

/-- C8: (1) for every summary text, `wordSegments` is exactly the sequence
of maximal runs of non-whitespace characters tagged with their absolute
character offsets (each segment is a maximal run, every non-whitespace
position lies in some segment, and the segments appear in strictly
increasing position order); (2) a word-boundary event at character index
`idx` sets the highlight to the first segment whose `[start, end]` bounds
contain `idx`, and leaves it unchanged when no segment's bounds contain
`idx`. -/
theorem word_highlight_correct :
    (∀ s : String,
      (∀ seg ∈ wordSegments s, maximalRunAt s.toList seg) ∧
      (∀ j ch, s.toList[j]? = some ch → ch.isWhitespace = false →
        ∃ seg ∈ wordSegments s, seg.start ≤ j ∧ j < seg.endPos) ∧
      List.Chain' (fun a b => a.endPos < b.start) (wordSegments s)) ∧
    (∀ (segs : List WordSegment) (idx : Nat) (cur : Option Nat),
      ((∀ seg ∈ segs, ¬(seg.start ≤ idx ∧ idx ≤ seg.endPos)) →
        boundaryUpdate segs idx cur = cur) ∧
      (∀ (k : Nat) (sk : WordSegment), segs[k]? = some sk →
        sk.start ≤ idx → idx ≤ sk.endPos →
        (∀ (j : Nat) (sj : WordSegment), j < k → segs[j]? = some sj →
          ¬(sj.start ≤ idx ∧ idx ≤ sj.endPos)) →
        boundaryUpdate segs idx cur = some k)) := by
  constructor
  · intro s
    have h := wordSegmentsAux_spec s.toList s.toList 0 []
      (List.drop_zero _) (Nat.zero_le _) (Nat.le_refl _) rfl
      (by intro ch hch; cases hch) (Or.inl rfl)
    obtain ⟨h1, h2, h3⟩ := h
    refine ⟨?_, ?_, h3⟩
    · intro seg hseg
      exact (h1 seg hseg).1
    · intro j ch hget hwsf
      exact h2 j ch (Nat.zero_le j) hget hwsf
  · intro segs idx cur
    constructor
    · intro h
      have hnone : segs.findIdx?
          (fun seg => decide (idx ≥ seg.start) &&
            decide (idx ≤ seg.endPos)) = none := by
        rw [List.findIdx?_eq_none_iff]
        intro seg hseg
        have := h seg hseg
        simp only [Bool.and_eq_false_iff, decide_eq_false_iff_not]
        by_cases h1 : seg.start ≤ idx
        · exact Or.inr (fun h2 => this ⟨h1, h2⟩)
        · exact Or.inl h1
      rw [boundaryUpdate, hnone]
    · intro k sk hks h1 h2 h3
      obtain ⟨hk, hsk⟩ := List.getElem?_eq_some.mp hks
      have hsome : segs.findIdx?
          (fun seg => decide (idx ≥ seg.start) &&
            decide (idx ≤ seg.endPos)) = some k := by
        rw [List.findIdx?_eq_some_iff_getElem]
        refine ⟨hk, ?_, ?_⟩
        · simp only [Bool.and_eq_true, decide_eq_true_eq]
          rw [hsk]
          exact ⟨h1, h2⟩
        · intro j hj
          have hjlt : j < segs.length := Nat.lt_trans hj hk
          have := h3 j (segs.get ⟨j, hjlt⟩) hj
            (by simp [List.get_eq_getElem, List.getElem?_eq_getElem hjlt])
          simp only [List.get_eq_getElem] at this
          simp only [Bool.and_eq_true, decide_eq_true_eq]
          intro hcon
          exact this ⟨hcon.1, hcon.2⟩
      rw [boundaryUpdate, hsome]

/-- C8 witness: the segments of `"Hello world today"` are
`Hello 0-5, world 6-11, today 12-17`; the segment `world` is a maximal run;
a boundary event at character index 6 selects segment 1 (`"world"`); an
event at index 100 (inside no segment) leaves the highlight unchanged. -/
theorem word_highlight_correct_witness :
    wordSegments "Hello world today" =
      [⟨"Hello", 0, 5⟩, ⟨"world", 6, 11⟩, ⟨"today", 12, 17⟩] ∧
    maximalRunAt "Hello world today".toList ⟨"world", 6, 11⟩ ∧
    boundaryUpdate (wordSegments "Hello world today") 6 none = some 1 ∧
    (wordSegments "Hello world today").get ⟨1, by decide⟩ =
      ⟨"world", 6, 11⟩ ∧
    boundaryUpdate (wordSegments "Hello world today") 100 (some 0) =
      some 0 := by
  refine ⟨by decide, ?_, ?_, by decide, ?_⟩
  · exact (word_highlight_correct.1 "Hello world today").1
      ⟨"world", 6, 11⟩ (by decide)
  · refine (word_highlight_correct.2 (wordSegments "Hello world today")
      6 none).2 1 ⟨"world", 6, 11⟩ (by decide) (by decide) (by decide) ?_
    intro j sj hj hsj
    have hj0 : j = 0 := by omega
    subst hj0
    rw [show (wordSegments "Hello world today")[0]? =
      some ⟨"Hello", 0, 5⟩ from by decide] at hsj
    cases hsj
    decide
  · exact (word_highlight_correct.2 (wordSegments "Hello world today")
      100 (some 0)).1 (by decide)

/-! ## Theorems: quiz shuffling (C10) -/

theorem get_cons_set_perm {α : Type} :
    ∀ (t : List α) (m : Nat) (hm : m < t.length) (a : α),
      List.Perm (t.get ⟨m, hm⟩ :: t.set m a) (a :: t)
  | b :: t', 0, _, a => List.Perm.swap a b t'
  | b :: t', m + 1, hm, a => by
      have hm' : m < t'.length := by simpa using hm
      have ih := get_cons_set_perm t' m hm' a
      have s1 : List.Perm (t'.get ⟨m, hm'⟩ :: b :: t'.set m a)
          (b :: t'.get ⟨m, hm'⟩ :: t'.set m a) :=
        List.Perm.swap b (t'.get ⟨m, hm'⟩) (t'.set m a)
      have s2 : List.Perm (b :: t'.get ⟨m, hm'⟩ :: t'.set m a)
          (b :: a :: t') := ih.cons b
      have s3 : List.Perm (b :: a :: t') (a :: b :: t') :=
        List.Perm.swap a b t'
      exact (s1.trans s2).trans s3

theorem set_set_swap_perm {α : Type} :
    ∀ (l : List α) (i j : Nat) (hi : i < l.length) (hj : j < l.length),
      List.Perm ((l.set i (l.get ⟨j, hj⟩)).set j (l.get ⟨i, hi⟩)) l
  | a :: t, 0, 0, _, _ => by simp
  | a :: t, 0, m + 1, hi, hj => by
      simpa using get_cons_set_perm t m (by simpa using hj) a
  | a :: t, n + 1, 0, hi, hj => by
      simpa using get_cons_set_perm t n (by simpa using hi) a
  | a :: t, n + 1, m + 1, hi, hj => by
      simpa using
        (set_set_swap_perm t n m (by simpa using hi) (by simpa using hj)).cons a

/-- Each Fisher-Yates swap permutes the list. -/
theorem listSwap_perm {α : Type} (l : List α) (i j : Nat) :
    List.Perm (listSwap l i j) l := by
  unfold listSwap
  split
  · next h => exact set_set_swap_perm l i j h.1 h.2
  · exact List.Perm.refl l

theorem shuffleLoop_perm {α : Type} (rand : Nat → ℚ) :
    ∀ (k : Nat) (l : List α), List.Perm (shuffleLoop rand l k) l
  | 0, l => List.Perm.refl l
  | k + 1, l =>
    (shuffleLoop_perm rand k _).trans
      (listSwap_perm l (k + 1) (fyIndex (rand (k + 1)) (k + 1)))

/-- `shuffleArray` produces a permutation of its input for every outcome of
the random draws. -/
theorem shuffleArray_perm {α : Type} (rand : Nat → ℚ) (l : List α) :
    List.Perm (shuffleArray rand l) l :=
  shuffleLoop_perm rand (l.length - 1) l

theorem optionsWithMetadataAux_map_text (c : Int) :
    ∀ (l : List String) (i : Nat),
      (optionsWithMetadataAux c l i).map (fun o => o.text) = l
  | [], _ => rfl
  | opt :: rest, i => by
      simp [optionsWithMetadataAux, optionsWithMetadataAux_map_text c rest (i + 1)]

theorem optionsWithMetadataAux_filter_none (c : Int) :
    ∀ (l : List String) (i : Nat), c < (i : Int) →
      (optionsWithMetadataAux c l i).filter (fun o => o.isCorrect) = []
  | [], _, _ => rfl
  | opt :: rest, i, h => by
      have hne : ((i : Int) == c) = false := by
        simp only [beq_eq_false_iff_ne]
        omega
      simp [optionsWithMetadataAux, List.filter_cons, hne,
        optionsWithMetadataAux_filter_none c rest (i + 1) (by push_cast; omega)]

/-- Exactly one flagged element is produced when the correct index is in
range: the one carrying the option text at that index. -/
theorem optionsWithMetadataAux_filter_single (c : Int) :
    ∀ (l : List String) (i : Nat), (i : Int) ≤ c → c < (i : Int) + l.length →
      ∃ x, l[(c - i).toNat]? = some x ∧
        (optionsWithMetadataAux c l i).filter (fun o => o.isCorrect) =
          [⟨x, true⟩]
  | [], i, hle, hlt => by simp at hlt; omega
  | opt :: rest, i, hle, hlt => by
      by_cases hc : (i : Int) = c
      · have hbeq : ((i : Int) == c) = true := by simpa using hc
        have hrest := optionsWithMetadataAux_filter_none c rest (i + 1)
          (by push_cast; omega)
        refine ⟨opt, ?_, ?_⟩
        · have h0 : (c - i).toNat = 0 := by omega
          simp [h0]
        · simp [optionsWithMetadataAux, List.filter_cons, hbeq, hrest]
      · have hbeq : ((i : Int) == c) = false := by
          simp only [beq_eq_false_iff_ne]
          omega
        have hlt' : c < ((i + 1 : Nat) : Int) + rest.length := by
          simp only [List.length_cons] at hlt
          push_cast at hlt ⊢
          omega
        obtain ⟨x, hx, hf⟩ := optionsWithMetadataAux_filter_single c rest (i + 1)
          (by push_cast; omega) hlt'
        refine ⟨x, ?_, ?_⟩
        · have hsucc : (c - i).toNat = (c - (i + 1 : Nat)).toNat + 1 := by
            push_cast
            omega
          rw [hsucc]
          simpa using hx
        · simp [optionsWithMetadataAux, List.filter_cons, hbeq, hf]

/-- Helper: the per-question option shuffle of `handleShuffleAndReset` is
sound for every well-formed question and every outcome of the draws. -/
theorem shuffleQuestion_sound (rand : Nat → ℚ) (q : QuizQuestion)
    (h : quizItemWellFormed q) :
    (shuffleQuestion rand q).question = q.question ∧
    List.Perm (shuffleQuestion rand q).options q.options ∧
    quizItemWellFormed (shuffleQuestion rand q) ∧
    (shuffleQuestion rand q).options[(shuffleQuestion rand
        q).correctAnswerIndex.toNat]? =
      q.options[q.correctAnswerIndex.toNat]? := by
  obtain ⟨h0, hlen⟩ := h
  have hperm : List.Perm (shuffleArray rand (optionsWithMetadata q))
      (optionsWithMetadata q) := shuffleArray_perm rand _
  obtain ⟨x, hx, hfilter⟩ := optionsWithMetadataAux_filter_single
    q.correctAnswerIndex q.options 0 (by exact_mod_cast h0)
    (by push_cast; omega)
  rw [show ((q.correctAnswerIndex - (0 : Nat)).toNat) =
    q.correctAnswerIndex.toNat by omega] at hx
  have hsf : (shuffleArray rand (optionsWithMetadata q)).filter
      (fun o => o.isCorrect) = [⟨x, true⟩] :=
    List.perm_singleton.mp ((hperm.filter _).trans (hfilter ▸ List.Perm.refl _))
  have hmem : (⟨x, true⟩ : OptionMeta) ∈
      (shuffleArray rand (optionsWithMetadata q)).filter (fun o => o.isCorrect) := by
    rw [hsf]; exact List.mem_singleton.mpr rfl
  have hmem' := List.mem_filter.mp hmem
  have hfind := List.findIdx?_eq_some_of_exists
    ⟨⟨x, true⟩, hmem'.1, hmem'.2⟩
  obtain ⟨hjlt, hpj, -⟩ := List.findIdx?_eq_some_iff_getElem.mp hfind
  set s := shuffleArray rand (optionsWithMetadata q) with hsdef
  set j := s.findIdx (fun o => o.isCorrect) with hjdef
  have hsj : s[j] = ⟨x, true⟩ := by
    have : s[j] ∈ s.filter (fun o => o.isCorrect) :=
      List.mem_filter.mpr ⟨List.getElem_mem hjlt, hpj⟩
    rw [hsf] at this
    exact List.mem_singleton.mp this
  have hresult : shuffleQuestion rand q =
      { q with options := s.map (fun o => o.text),
               correctAnswerIndex := (j : Int) } := by
    rw [shuffleQuestion]
    simp only [← hsdef, hfind]
  rw [hresult]
  refine ⟨rfl, ?_, ⟨?_, ?_⟩, ?_⟩
  · have := hperm.map (fun o => o.text)
    simpa [optionsWithMetadata,
      optionsWithMetadataAux_map_text q.correctAnswerIndex q.options 0]
      using this
  · exact Int.ofNat_nonneg j
  · simp only [List.length_map]
    exact_mod_cast hjlt
  · simp only [Int.toNat_ofNat]
    rw [List.getElem?_map, List.getElem?_eq_getElem hjlt, hsj, hx]
    rfl

theorem shuffleQuestionsAux_mem (randO : Nat → Nat → ℚ) :
    ∀ (l : List QuizQuestion) (k : Nat) (q' : QuizQuestion),
      q' ∈ shuffleQuestionsAux randO l k →
      ∃ q ∈ l, ∃ m, q' = shuffleQuestion (randO m) q
  | [], _, _, h => by simp [shuffleQuestionsAux] at h
  | q :: rest, k, q', h => by
      rcases (by simpa [shuffleQuestionsAux] using h :
          q' = shuffleQuestion (randO k) q ∨
            q' ∈ shuffleQuestionsAux randO rest (k + 1)) with h1 | h2
      · exact ⟨q, by simp, k, h1⟩
      · obtain ⟨qq, hqq, m, hm⟩ := shuffleQuestionsAux_mem randO rest (k + 1) q' h2
        exact ⟨qq, by simp [hqq], m, hm⟩

/-- C10: for every list of well-formed quiz questions and any outcome of the
random draws, every question produced by `handleShuffleAndReset` comes from
an input question with the same question text, its options a permutation of
the input's options, a new `correctAnswerIndex` in range, and the new index
selecting the same option text that the input's index selected (the correct
answer is tracked through the shuffle by the `isCorrect` flag). -/
theorem quiz_shuffle_sound (randQ : Nat → ℚ) (randO : Nat → Nat → ℚ)
    (questions : List QuizQuestion) (q' : QuizQuestion)
    (hmem : q' ∈ handleShuffleAndReset randQ randO questions)
    (hwf : ∀ q ∈ questions, quizItemWellFormed q) :
    ∃ q ∈ questions,
      q'.question = q.question ∧
      List.Perm q'.options q.options ∧
      quizItemWellFormed q' ∧
      q'.options[q'.correctAnswerIndex.toNat]? =
        q.options[q.correctAnswerIndex.toNat]? := by
  obtain ⟨q, hql, m, rfl⟩ :=
    shuffleQuestionsAux_mem randO (shuffleArray randQ questions) 0 q' hmem
  have hq : q ∈ questions := (shuffleArray_perm randQ questions).mem_iff.mp hql
  have h := shuffleQuestion_sound (randO m) q (hwf q hq)
  exact ⟨q, hq, h.1, h.2.1, h.2.2.1, h.2.2.2⟩

/-- A concrete one-question quiz used by the shuffle witness. -/
def sampleQuiz : List QuizQuestion := [⟨"Q", ["A", "B", "C"], 1⟩]

/-- C10 witness: the shuffle-soundness theorem applied to a concrete quiz
and the all-zero random draws (which rotate the options to
`["B", "C", "A"]` with new correct index 0, still selecting `"B"`). -/
theorem quiz_shuffle_sound_witness :
    (⟨"Q", ["B", "C", "A"], 0⟩ : QuizQuestion) ∈
      handleShuffleAndReset (fun _ => 0) (fun _ _ => 0) sampleQuiz ∧
    ∃ q ∈ sampleQuiz,
      (⟨"Q", ["B", "C", "A"], 0⟩ : QuizQuestion).question = q.question ∧
      List.Perm (⟨"Q", ["B", "C", "A"], 0⟩ : QuizQuestion).options q.options ∧
      quizItemWellFormed (⟨"Q", ["B", "C", "A"], 0⟩ : QuizQuestion) ∧
      (⟨"Q", ["B", "C", "A"], 0⟩ : QuizQuestion).options[
        ((⟨"Q", ["B", "C", "A"], 0⟩ : QuizQuestion).correctAnswerIndex.toNat)]? =
        q.options[q.correctAnswerIndex.toNat]? := by
  have hfy : ∀ i : Nat, fyIndex 0 i = 0 := fun i => by simp [fyIndex]
  have hmem : handleShuffleAndReset (fun _ => 0) (fun _ _ => 0) sampleQuiz =
      [⟨"Q", ["B", "C", "A"], 0⟩] := by
    simp [handleShuffleAndReset, sampleQuiz, shuffleArray, shuffleLoop, hfy,
      listSwap, shuffleQuestionsAux, shuffleQuestion, optionsWithMetadata,
      optionsWithMetadataAux, List.findIdx?_cons]
  refine ⟨by rw [hmem]; exact List.mem_singleton.mpr rfl, ?_⟩
  exact quiz_shuffle_sound (fun _ => 0) (fun _ _ => 0) sampleQuiz
    ⟨"Q", ["B", "C", "A"], 0⟩
    (by rw [hmem]; exact List.mem_singleton.mpr rfl) (by decide)

end Lumina
